import Mathlib

/-!
Verification of `generate-token.py`, a one-shot script that builds a JWT
claims payload, signs it with HMAC-SHA256 under a hard-coded shared secret
(PyJWT `jwt.encode(payload, SECRET, algorithm="HS256")`), and prints the
token together with usage instructions.

The embedding works over `List Char` for Python strings (all strings in the
script are ASCII) and `List Nat` for byte strings.  The clock readings taken
by the two `datetime.now()` calls are modelled as rational numbers; Python's
`int()` truncation toward zero is `pyInt`.
-/

namespace TokenGen

/- ## base64url (RFC 4648 §5), as used by PyJWT with `=` padding stripped -/

/-- The base64url alphabet. -/
def b64Alphabet : List Char :=
  "ABCDEFGHIJKLMNOPQRSTUVWXYZabcdefghijklmnopqrstuvwxyz0123456789-_".toList

/-- Character encoding a 6-bit group. -/
def b64Char (n : Nat) : Char := b64Alphabet.getD n 'A'

/-- The 6-bit value of a base64url character; `none` outside the alphabet. -/
def b64CharVal (c : Char) : Option Nat :=
  let n := c.toNat
  if 65 ≤ n ∧ n ≤ 90 then some (n - 65)
  else if 97 ≤ n ∧ n ≤ 122 then some (n - 71)
  else if 48 ≤ n ∧ n ≤ 57 then some (n + 4)
  else if n = 45 then some 62
  else if n = 95 then some 63
  else none

/-- base64url encoding of a byte string, without padding (PyJWT strips the
trailing `=` characters from `base64.urlsafe_b64encode`). -/
def base64urlEncode : List Nat → List Char
  | [] => []
  | [b1] => [b64Char (b1 / 4), b64Char (b1 % 4 * 16)]
  | [b1, b2] =>
      [b64Char (b1 / 4), b64Char (b1 % 4 * 16 + b2 / 16), b64Char (b2 % 16 * 4)]
  | b1 :: b2 :: b3 :: rest =>
      b64Char (b1 / 4) :: b64Char (b1 % 4 * 16 + b2 / 16) ::
      b64Char (b2 % 16 * 4 + b3 / 64) :: b64Char (b3 % 64) :: base64urlEncode rest

/-- Strict base64url decoding without padding: rejects characters outside the
alphabet, lengths ≡ 1 (mod 4), and nonzero trailing bits. -/
def base64urlDecode : List Char → Option (List Nat)
  | [] => some []
  | [c1, c2] =>
      match b64CharVal c1, b64CharVal c2 with
      | some v1, some v2 =>
          if v2 % 16 = 0 then some [v1 * 4 + v2 / 16] else none
      | _, _ => none
  | [c1, c2, c3] =>
      match b64CharVal c1, b64CharVal c2, b64CharVal c3 with
      | some v1, some v2, some v3 =>
          if v3 % 4 = 0 then some [v1 * 4 + v2 / 16, v2 % 16 * 16 + v3 / 4] else none
      | _, _, _ => none
  | c1 :: c2 :: c3 :: c4 :: rest =>
      match b64CharVal c1, b64CharVal c2, b64CharVal c3, b64CharVal c4,
            base64urlDecode rest with
      | some v1, some v2, some v3, some v4, some bs =>
          some ((v1 * 4 + v2 / 16) :: (v2 % 16 * 16 + v3 / 4) :: (v3 % 4 * 64 + v4) :: bs)
      | _, _, _, _, _ => none
  | [_] => none

/- ## Splitting a string on `.` (Python `str.split(".")`) -/

def splitOnDot : List Char → List (List Char)
  | [] => [[]]
  | c :: rest =>
      if c = '.' then [] :: splitOnDot rest
      else
        match splitOnDot rest with
        | [] => [[c]]
        | s :: ss => (c :: s) :: ss

/- ## JSON values and compact serialization

The script's dicts map string keys to strings or ints, with no characters
needing JSON escaping, so the value model is restricted accordingly.
`serializeObj` reproduces `json.dumps(d, separators=(",", ":"))` on such
dicts (keys in insertion order). -/

inductive JVal where
  | jstr (s : List Char)
  | jint (n : Int)
deriving DecidableEq

/-- Decimal digit character. -/
def digitChar : Nat → Char
  | 0 => '0'
  | 1 => '1'
  | 2 => '2'
  | 3 => '3'
  | 4 => '4'
  | 5 => '5'
  | 6 => '6'
  | 7 => '7'
  | 8 => '8'
  | 9 => '9'
  | _ => '0'

/-- Decimal representation of a natural number (Python `repr` of a
nonnegative int). -/
def natRepr (n : Nat) : List Char :=
  if n < 10 then [digitChar n]
  else natRepr (n / 10) ++ [digitChar (n % 10)]
termination_by n
decreasing_by exact Nat.div_lt_self (by omega) (by omega)

/-- Decimal representation of an integer (Python `repr` of an int). -/
def intRepr (n : Int) : List Char :=
  if n < 0 then '-' :: natRepr (-n).toNat else natRepr n.toNat

/-- Reading a digit string back as a number (used to show decimal
representations are injective). -/
def parseDigits (l : List Char) : Nat :=
  l.foldl (fun a c => a * 10 + (c.toNat - 48)) 0

/-- A JSON string literal (no escapes needed for the strings at hand). -/
def quoteStr (s : List Char) : List Char := '"' :: s ++ ['"']

def serializeVal : JVal → List Char
  | .jstr s => quoteStr s
  | .jint n => intRepr n

/-- Serialize the fields of an object, emitting the closing brace after the
last field (comma-separated, `:` between key and value). -/
def serializeFields : List (List Char × JVal) → List Char
  | [] => [Char.ofNat 125]
  | [kv] => quoteStr kv.1 ++ ':' :: serializeVal kv.2 ++ [Char.ofNat 125]
  | kv :: rest => quoteStr kv.1 ++ ':' :: serializeVal kv.2 ++ ',' :: serializeFields rest

/-- `json.dumps(d, separators=(",", ":"))` on a dict of strings/ints. -/
def serializeObj (fields : List (List Char × JVal)) : List Char :=
  Char.ofNat 123 :: serializeFields fields

/- ## SHA-256 (FIPS 180-4) over byte strings, words as naturals mod 2^32 -/

/-- Truncation to a 32-bit word. -/
def w32 (n : Nat) : Nat := n % 4294967296

/-- Rotate the 32-bit word `x` right by `k` bit positions. -/
def rotr (k x : Nat) : Nat := w32 ((x >>> k) ||| (x <<< (32 - k)))

def bigSigma0 (x : Nat) : Nat := rotr 2 x ^^^ rotr 13 x ^^^ rotr 22 x

def bigSigma1 (x : Nat) : Nat := rotr 6 x ^^^ rotr 11 x ^^^ rotr 25 x

def smallSigma0 (x : Nat) : Nat := rotr 7 x ^^^ rotr 18 x ^^^ (x >>> 3)

def smallSigma1 (x : Nat) : Nat := rotr 17 x ^^^ rotr 19 x ^^^ (x >>> 10)

def chF (x y z : Nat) : Nat := (x &&& y) ^^^ ((x ^^^ 4294967295) &&& z)

def majF (x y z : Nat) : Nat := (x &&& y) ^^^ (x &&& z) ^^^ (y &&& z)

/-- The sixty-four SHA-256 round constants, written in decimal. -/
def sha256K : List Nat :=
  [1116352408, 1899447441, 3049323471, 3921009573, 961987163,
   1508970993, 2453635748, 2870763221, 3624381080, 310598401,
   607225278, 1426881987, 1925078388, 2162078206, 2614888103,
   3248222580, 3835390401, 4022224774, 264347078, 604807628,
   770255983, 1249150122, 1555081692, 1996064986, 2554220882,
   2821834349, 2952996808, 3210313671, 3336571891, 3584528711,
   113926993, 338241895, 666307205, 773529912, 1294757372,
   1396182291, 1695183700, 1986661051, 2177026350, 2456956037,
   2730485921, 2820302411, 3259730800, 3345764771, 3516065817,
   3600352804, 4094571909, 275423344, 430227734, 506948616,
   659060556, 883997877, 958139571, 1322822218, 1537002063,
   1747873779, 1955562222, 2024104815, 2227730452, 2361852424,
   2428436474, 2756734187, 3204031479, 3329325298]

/-- The eight words of the SHA-256 initial hash value, written in decimal. -/
def sha256H0 : List Nat :=
  [1779033703, 3144134277, 1013904242, 2773480762,
   1359893119, 2600822924, 528734635, 1541459225]

/-- Big-endian bytes of a natural number, fixed width `k`. -/
def natToBytesBE : Nat → Nat → List Nat
  | 0, _ => []
  | k + 1, n => natToBytesBE k (n / 256) ++ [n % 256]

/-- SHA-256 padding: `0x80`, zeros to 56 mod 64, 8-byte big-endian bit length. -/
def sha256Pad (msg : List Nat) : List Nat :=
  msg ++ 128 :: List.replicate ((64 + 55 - msg.length % 64) % 64) 0 ++
    natToBytesBE 8 (msg.length * 8)

/-- Big-endian 32-bit words from bytes (length a multiple of 4). -/
def bytesToWords : List Nat → List Nat
  | b1 :: b2 :: b3 :: b4 :: rest =>
      (b1 * 16777216 + b2 * 65536 + b3 * 256 + b4) :: bytesToWords rest
  | _ => []

/-- Big-endian bytes of a 32-bit word. -/
def wordToBytes (w : Nat) : List Nat :=
  [w / 16777216 % 256, w / 65536 % 256, w / 256 % 256, w % 256]

/-- Extend the 16-word message schedule by `k` further words. -/
def extendSchedule : List Nat → Nat → List Nat
  | ws, 0 => ws
  | ws, k + 1 =>
      let len := ws.length
      extendSchedule
        (ws ++ [w32 (smallSigma1 (ws.getD (len - 2) 0) + ws.getD (len - 7) 0 +
                     smallSigma0 (ws.getD (len - 15) 0) + ws.getD (len - 16) 0)]) k

/-- The eight working registers of the compression function. -/
structure Regs where
  ra : Nat
  rb : Nat
  rc : Nat
  rd : Nat
  re : Nat
  rf : Nat
  rg : Nat
  rh : Nat

/-- One round of the SHA-256 compression function. -/
def compressStep (r : Regs) (kw : Nat × Nat) : Regs :=
  let t1 := w32 (r.rh + bigSigma1 r.re + chF r.re r.rf r.rg + kw.1 + kw.2)
  let t2 := w32 (bigSigma0 r.ra + majF r.ra r.rb r.rc)
  { ra := w32 (t1 + t2), rb := r.ra, rc := r.rb, rd := r.rc,
    re := w32 (r.rd + t1), rf := r.re, rg := r.rf, rh := r.rg }

/-- Process one 64-byte chunk. -/
def processChunk (hs : List Nat) (chunk : List Nat) : List Nat :=
  let ws := extendSchedule (bytesToWords chunk) 48
  let r0 : Regs :=
    { ra := hs.getD 0 0, rb := hs.getD 1 0, rc := hs.getD 2 0, rd := hs.getD 3 0,
      re := hs.getD 4 0, rf := hs.getD 5 0, rg := hs.getD 6 0, rh := hs.getD 7 0 }
  let r := (sha256K.zip ws).foldl compressStep r0
  [w32 (hs.getD 0 0 + r.ra), w32 (hs.getD 1 0 + r.rb),
   w32 (hs.getD 2 0 + r.rc), w32 (hs.getD 3 0 + r.rd),
   w32 (hs.getD 4 0 + r.re), w32 (hs.getD 5 0 + r.rf),
   w32 (hs.getD 6 0 + r.rg), w32 (hs.getD 7 0 + r.rh)]

/-- Split a byte string into 64-byte chunks. -/
def chunks64 (l : List Nat) : List (List Nat) :=
  if h : l = [] then [] else l.take 64 :: chunks64 (l.drop 64)
termination_by l.length
decreasing_by
  simp only [List.length_drop]
  have := List.length_pos.mpr h
  omega

/-- SHA-256 of a byte string. -/
def sha256 (msg : List Nat) : List Nat :=
  (((chunks64 (sha256Pad msg)).foldl processChunk sha256H0).map wordToBytes).flatten

/- ## HMAC-SHA256 (RFC 2104) -/

/-- The 64-byte HMAC key block: long keys are hashed, short keys are padded
with zero bytes. -/
def hmacKeyBlock (key : List Nat) : List Nat :=
  let k0 := if 64 < key.length then sha256 key else key
  k0 ++ List.replicate (64 - k0.length) 0

/-- HMAC-SHA256 of a message under a key. -/
def hmacSha256 (key msg : List Nat) : List Nat :=
  sha256 (((hmacKeyBlock key).map (fun b => b ^^^ 92)) ++
    sha256 (((hmacKeyBlock key).map (fun b => b ^^^ 54)) ++ msg))

/- ## The script: `generate-token.py` -/

/-- UTF-8 encoding, restricted to ASCII (every string in the script is
ASCII). -/
def strToBytes (s : List Char) : List Nat := s.map Char.toNat

/-- `SECRET = "super-secret-key-change-in-production"` (line 12). -/
def SECRET : List Char := "super-secret-key-change-in-production".toList

/-- The JOSE header PyJWT builds for `algorithm="HS256"`, serialized with
`sort_keys=True`: `{"alg":"HS256","typ":"JWT"}`. -/
def headerFields : List (List Char × JVal) :=
  [("alg".toList, .jstr "HS256".toList), ("typ".toList, .jstr "JWT".toList)]

/-- The claims payload dict (lines 15–20), in insertion order. -/
def payloadFields (iat exp : Int) : List (List Char × JVal) :=
  [("sub".toList, .jstr "user123".toList),
   ("email".toList, .jstr "user@example.com".toList),
   ("iat".toList, .jint iat),
   ("exp".toList, .jint exp)]

/-- The base64url-encoded header segment. -/
def headerSeg : List Char := base64urlEncode (strToBytes (serializeObj headerFields))

/-- The base64url-encoded payload segment. -/
def payloadSeg (iat exp : Int) : List Char :=
  base64urlEncode (strToBytes (serializeObj (payloadFields iat exp)))

/-- `jwt.encode(payload, secret, algorithm="HS256")`: base64url header and
payload, then the base64url HMAC-SHA256 signature over `header.payload`. -/
def jwtEncode (payload : List (List Char × JVal)) (secret : List Char) : List Char :=
  base64urlEncode (strToBytes (serializeObj headerFields)) ++ '.' ::
    base64urlEncode (strToBytes (serializeObj payload)) ++ '.' ::
    base64urlEncode (hmacSha256 (strToBytes secret)
      (strToBytes (base64urlEncode (strToBytes (serializeObj headerFields)) ++ '.' ::
        base64urlEncode (strToBytes (serializeObj payload)))))

/-- The signature segment of the generated token. -/
def sigSeg (iat exp : Int) : List Char :=
  base64urlEncode (hmacSha256 (strToBytes SECRET)
    (strToBytes (headerSeg ++ '.' :: payloadSeg iat exp)))

/-- `token = jwt.encode(payload, SECRET, algorithm="HS256")` (line 23),
as a function of the two truncated timestamps in the payload. -/
def generateToken (iat exp : Int) : List Char := jwtEncode (payloadFields iat exp) SECRET

/-- HS256 signature verification: split on `.`, recompute the HMAC over
`header.payload` with the offered secret, compare with the signature
segment. -/
def jwtVerify (tok secret : List Char) : Bool :=
  match splitOnDot tok with
  | [hs, ps, sg] =>
      sg == base64urlEncode (hmacSha256 (strToBytes secret) (strToBytes (hs ++ '.' :: ps)))
  | _ => false

/- ## The clock and the payload timestamps -/

/-- Python `int()` on a real-valued timestamp: truncation toward zero. -/
def pyInt (q : ℚ) : Int := if 0 ≤ q then ⌊q⌋ else ⌈q⌉

/-- `"iat": int(datetime.now().timestamp())` (line 18), from the first clock
reading. -/
def payloadIat (t1 : ℚ) : Int := pyInt t1

/-- `"exp": int((datetime.now() + timedelta(days=365)).timestamp())`
(line 19), from the second clock reading; `timedelta(days=365)` is
31536000 seconds. -/
def payloadExp (t2 : ℚ) : Int := pyInt (t2 + 31536000)

/-- The token produced by one run whose two `datetime.now()` calls read
`t1` and `t2`. -/
def runToken (t1 t2 : ℚ) : List Char := generateToken (payloadIat t1) (payloadExp t2)

/- ## The printed output (lines 25–43) -/

/-- `"="*50`. -/
def eqLine : List Char := List.replicate 50 '='

/-- `json.dumps(payload, indent=2)` (line 30). -/
def prettyPayload (iat exp : Int) : List Char :=
  Char.ofNat 123 ::
    "\n  \"sub\": \"user123\",\n  \"email\": \"user@example.com\",\n  \"iat\": ".toList ++
    intRepr iat ++ ",\n  \"exp\": ".toList ++ intRepr exp ++ '\n' :: [Char.ofNat 125]

/-- The argument of each `print` call, in program order, as a function of the
token and the two payload timestamps. -/
def outputLines (tok : List Char) (iat exp : Int) : List (List Char) :=
  [ '\n' :: eqLine,
    "VALID JWT TOKEN FOR TESTING".toList,
    eqLine,
    "\nToken:\n".toList ++ tok ++ "\n".toList,
    "Payload:".toList,
    prettyPayload iat exp,
    '\n' :: eqLine ++ "\n".toList,
    "USAGE INSTRUCTIONS:\n".toList,
    "1. PowerShell:".toList,
    "   $token = \"".toList ++ tok ++ "\"".toList,
    "   $headers = @\x7b \"Authorization\" = \"Bearer $token\"; \"Content-Type\" = \"application/json\" \x7d".toList,
    "   Invoke-WebRequest http://localhost:3000/notifications/health -Headers $headers".toList,
    "\n2. Linux/Mac (curl):".toList,
    "   curl -H \"Authorization: Bearer ".toList ++ tok ++ "\" http://localhost:3000/notifications/health".toList,
    "\n3. Update simple-test.ps1:".toList,
    "   Change line: [string]$Token = \"".toList ++ tok ++ "\"".toList,
    '\n' :: eqLine ++ "\n".toList ]

/-- Everything the script writes to standard output. -/
def scriptOutput (iat exp : Int) : List (List Char) :=
  outputLines (generateToken iat exp) iat exp

/-- The signing step may raise; the model is the straight-line script run
against an arbitrary signing backend: an exception at line 23 aborts the
process before any `print` executes (empty stdout, exit status 1), a
successful signing runs every `print` and exits 0. -/
def runScript (enc : List (List Char × JVal) → List Char → Except (List Char) (List Char))
    (iat exp : Int) : List (List Char) × Nat :=
  match enc (payloadFields iat exp) SECRET with
  | .error _ => ([], 1)
  | .ok tok => (outputLines tok iat exp, 0)

/-- The actual signing backend, `jwt.encode`, which is total. -/
def jwtEncodeExc (payload : List (List Char × JVal)) (secret : List Char) :
    Except (List Char) (List Char) :=
  .ok (jwtEncode payload secret)

/-- A signing backend that always raises (used to exercise the failure
branch of `runScript`). -/
def failingEnc (_ : List (List Char × JVal)) (_ : List Char) :
    Except (List Char) (List Char) :=
  .error "signing failed".toList

/-- Observable side effects a process step can have. -/
inductive Effect where
  | stdout (line : List Char)
  | networkCall (endpoint : List Char)
  | fileWrite (path : List Char)
  | envMutation (name : List Char)

/-- Is the effect a write to standard output? -/
def Effect.isStdout : Effect → Bool
  | .stdout _ => true
  | _ => false

/-- The effect trace of one run: the script's only effectful statements are
its `print` calls, each a write to standard output. -/
def scriptTrace (iat exp : Int) : List Effect :=
  (scriptOutput iat exp).map Effect.stdout

/-- The known secret with a NUL byte appended: a different Python string,
whose zero-padded HMAC key block coincides with the known secret's. -/
def altSecret : List Char := SECRET ++ [Char.ofNat 0]

/- ## Lemmas: base64url and splitting -/

theorem b64CharVal_b64Char {v : Nat} (hv : v < 64) : b64CharVal (b64Char v) = some v := by
  have hall : ∀ w ∈ List.range 64, b64CharVal (b64Char w) = some w := by decide
  exact hall v (List.mem_range.mpr hv)
theorem base64urlDecode_encode (bs : List Nat) (hb : ∀ b ∈ bs, b < 256) :
    base64urlDecode (base64urlEncode bs) = some bs := by
  induction bs using base64urlEncode.induct with
  | case1 => rfl
  | case2 b1 =>
      have h1 : b1 < 256 := hb b1 (by simp)
      simp only [base64urlEncode, base64urlDecode]
      rw [b64CharVal_b64Char (by omega), b64CharVal_b64Char (by omega)]
      simp only []
      rw [if_pos (by omega)]
      congr 2
      omega
  | case3 b1 b2 =>
      have h1 : b1 < 256 := hb b1 (by simp)
      have h2 : b2 < 256 := hb b2 (by simp)
      simp only [base64urlEncode, base64urlDecode]
      rw [b64CharVal_b64Char (by omega), b64CharVal_b64Char (by omega),
          b64CharVal_b64Char (by omega)]
      simp only []
      rw [if_pos (by omega)]
      have e1 : (b1 % 4 * 16 + b2 / 16) / 16 = b1 % 4 := by omega
      have e2 : (b1 % 4 * 16 + b2 / 16) % 16 = b2 / 16 := by omega
      have e3 : b2 % 16 * 4 / 4 = b2 % 16 := by omega
      rw [e1, e2, e3]
      congr 2
      · omega
      congr 1
      omega
  | case4 b1 b2 b3 rest ih =>
      have h1 : b1 < 256 := hb b1 (by simp)
      have h2 : b2 < 256 := hb b2 (by simp)
      have h3 : b3 < 256 := hb b3 (by simp)
      have hrest : ∀ b ∈ rest, b < 256 := fun b hb2 => hb b (by simp [hb2])
      simp only [base64urlEncode, base64urlDecode]
      rw [b64CharVal_b64Char (by omega), b64CharVal_b64Char (by omega),
          b64CharVal_b64Char (by omega), b64CharVal_b64Char (by omega), ih hrest]
      simp only []
      have e1 : (b1 % 4 * 16 + b2 / 16) / 16 = b1 % 4 := by omega
      have e2 : (b1 % 4 * 16 + b2 / 16) % 16 = b2 / 16 := by omega
      have e4 : (b2 % 16 * 4 + b3 / 64) % 4 = b3 / 64 % 4 := by omega
      rw [e1, e2, e4]
      congr 2
      · omega
      congr 1
      · omega
      congr 1
      omega

theorem base64urlEncode_inj {a b : List Nat} (ha : ∀ x ∈ a, x < 256)
    (hb : ∀ x ∈ b, x < 256) (h : base64urlEncode a = base64urlEncode b) : a = b := by
  have h1 := base64urlDecode_encode a ha
  rw [h, base64urlDecode_encode b hb] at h1
  exact (Option.some_inj.mp h1).symm

theorem b64Char_ne_dot (n : Nat) : b64Char n ≠ '.' := by
  by_cases hn : n < 64
  · have hall : ∀ w ∈ List.range 64, b64Char w ≠ '.' := by decide
    exact hall n (List.mem_range.mpr hn)
  · have hlen : b64Alphabet.length = 64 := by decide
    unfold b64Char
    rw [List.getD_eq_default]
    · decide
    · omega

theorem mem_base64urlEncode_ne_dot (bs : List Nat) :
    ∀ c ∈ base64urlEncode bs, c ≠ '.' := by
  induction bs using base64urlEncode.induct with
  | case1 => intro c hc; simp [base64urlEncode] at hc
  | case2 b1 =>
      intro c hc
      simp only [base64urlEncode, List.mem_cons, List.not_mem_nil, or_false] at hc
      rcases hc with h | h <;> exact h ▸ b64Char_ne_dot _
  | case3 b1 b2 =>
      intro c hc
      simp only [base64urlEncode, List.mem_cons, List.not_mem_nil, or_false] at hc
      rcases hc with h | h | h <;> exact h ▸ b64Char_ne_dot _
  | case4 b1 b2 b3 rest ih =>
      intro c hc
      simp only [base64urlEncode, List.mem_cons] at hc
      rcases hc with h | h | h | h | h
      · exact h ▸ b64Char_ne_dot _
      · exact h ▸ b64Char_ne_dot _
      · exact h ▸ b64Char_ne_dot _
      · exact h ▸ b64Char_ne_dot _
      · exact ih c h

theorem splitOnDot_no_dot (l : List Char) (h : ∀ c ∈ l, c ≠ '.') :
    splitOnDot l = [l] := by
  induction l with
  | nil => rfl
  | cons c rest ih =>
      have hc : c ≠ '.' := h c (by simp)
      simp only [splitOnDot, if_neg hc]
      rw [ih (fun x hx => h x (by simp [hx]))]

theorem splitOnDot_append (a r : List Char) (h : ∀ c ∈ a, c ≠ '.') :
    splitOnDot (a ++ '.' :: r) = a :: splitOnDot r := by
  induction a with
  | nil => simp [splitOnDot]
  | cons c rest ih =>
      have hc : c ≠ '.' := h c (by simp)
      simp only [List.cons_append, splitOnDot, if_neg hc, List.append_eq]
      rw [ih (fun x hx => h x (by simp [hx]))]

/- ## Lemmas: decimal representations -/

theorem digitChar_toNat (m : Nat) (h : m < 10) : (digitChar m).toNat = 48 + m := by
  interval_cases m <;> rfl

theorem digitChar_ne_comma : ∀ m, digitChar m ≠ ','
  | 0 | 1 | 2 | 3 | 4 | 5 | 6 | 7 | 8 | 9 => by decide
  | _ + 10 => by exact (by decide : '0' ≠ ',')

theorem digitChar_toNat_lt : ∀ m, (digitChar m).toNat < 256
  | 0 | 1 | 2 | 3 | 4 | 5 | 6 | 7 | 8 | 9 => by decide
  | _ + 10 => by exact (by decide : ('0').toNat < 256)

theorem parseDigits_append_digit (l : List Char) (c : Char) :
    parseDigits (l ++ [c]) = parseDigits l * 10 + (c.toNat - 48) := by
  unfold parseDigits
  rw [List.foldl_append]
  rfl

theorem parseDigits_natRepr (n : Nat) : parseDigits (natRepr n) = n := by
  induction n using Nat.strong_induction_on with
  | _ n ih =>
    unfold natRepr
    split
    · rename_i h
      show parseDigits [digitChar n] = n
      unfold parseDigits
      simp only [List.foldl_cons, List.foldl_nil]
      rw [digitChar_toNat n h]
      omega
    · rename_i h
      rw [parseDigits_append_digit, ih (n / 10) (Nat.div_lt_self (by omega) (by omega)),
          digitChar_toNat (n % 10) (by omega)]
      omega

theorem natRepr_inj {a b : Nat} (h : natRepr a = natRepr b) : a = b := by
  have := congrArg parseDigits h
  rwa [parseDigits_natRepr, parseDigits_natRepr] at this

theorem comma_not_mem_natRepr (n : Nat) : ',' ∉ natRepr n := by
  induction n using Nat.strong_induction_on with
  | _ n ih =>
    intro hc
    unfold natRepr at hc
    split at hc
    · simp only [List.mem_singleton] at hc
      exact digitChar_ne_comma n hc.symm
    · rename_i h
      rw [List.mem_append] at hc
      rcases hc with hc | hc
      · exact ih (n / 10) (Nat.div_lt_self (by omega) (by omega)) hc
      · simp only [List.mem_singleton] at hc
        exact digitChar_ne_comma (n % 10) hc.symm

theorem natRepr_toNat_lt (n : Nat) : ∀ c ∈ natRepr n, c.toNat < 256 := by
  induction n using Nat.strong_induction_on with
  | _ n ih =>
    intro c hc
    unfold natRepr at hc
    split at hc
    · simp only [List.mem_singleton] at hc
      exact hc ▸ digitChar_toNat_lt n
    · rename_i h
      rw [List.mem_append] at hc
      rcases hc with hc | hc
      · exact ih (n / 10) (Nat.div_lt_self (by omega) (by omega)) c hc
      · simp only [List.mem_singleton] at hc
        exact hc ▸ digitChar_toNat_lt (n % 10)

theorem intRepr_nonneg {n : Int} (h : 0 ≤ n) : intRepr n = natRepr n.toNat := by
  unfold intRepr
  rw [if_neg (by omega)]

theorem intRepr_toNat_lt (n : Int) : ∀ c ∈ intRepr n, c.toNat < 256 := by
  intro c hc
  unfold intRepr at hc
  split at hc
  · rcases List.mem_cons.mp hc with hc | hc
    · exact hc ▸ (by decide : ('-').toNat < 256)
    · exact natRepr_toNat_lt _ c hc
  · exact natRepr_toNat_lt _ c hc

theorem append_sep_cancel {sep : Char} (a : List Char) :
    ∀ (b r1 r2 : List Char), sep ∉ a → sep ∉ b →
      a ++ sep :: r1 = b ++ sep :: r2 → a = b := by
  induction a with
  | nil =>
      intro b r1 r2 _ hb h
      cases b with
      | nil => rfl
      | cons d b2 =>
          simp only [List.nil_append, List.cons_append, List.cons.injEq] at h
          exact absurd (h.1 ▸ List.mem_cons_self d b2) hb
  | cons c a2 ih =>
      intro b r1 r2 ha hb h
      cases b with
      | nil =>
          simp only [List.cons_append, List.nil_append, List.cons.injEq] at h
          exact absurd (h.1.symm ▸ List.mem_cons_self c a2) ha
      | cons d b2 =>
          simp only [List.cons_append, List.cons.injEq] at h
          rw [h.1, ih b2 r1 r2 (fun hx => ha (List.mem_cons_of_mem c hx))
            (fun hx => hb (List.mem_cons_of_mem d hx)) h.2]

/- ## Lemmas: byte bounds and injectivity of the segments -/

theorem char_toNat_inj {a b : Char} (h : a.toNat = b.toNat) : a = b :=
  Char.ext (UInt32.ext h)

theorem strToBytes_inj {a b : List Char} (h : strToBytes a = strToBytes b) : a = b := by
  induction a generalizing b with
  | nil => cases b with
    | nil => rfl
    | cons d b2 => simp [strToBytes] at h
  | cons c a2 ih =>
      cases b with
      | nil => simp [strToBytes] at h
      | cons d b2 =>
          simp only [strToBytes, List.map_cons, List.cons.injEq] at h
          rw [char_toNat_inj h.1, ih h.2]

theorem serialize_payload_decomp (i e : Int) :
    serializeObj (payloadFields i e) =
      "\x7b\"sub\":\"user123\",\"email\":\"user@example.com\",\"iat\":".toList ++
        intRepr i ++ ',' :: ("\"exp\":".toList ++ intRepr e ++ [Char.ofNat 125]) := rfl

theorem payload_bytes_lt (i e : Int) :
    ∀ x ∈ strToBytes (serializeObj (payloadFields i e)), x < 256 := by
  intro x hx
  simp only [strToBytes, List.mem_map] at hx
  obtain ⟨c, hc, rfl⟩ := hx
  rw [serialize_payload_decomp] at hc
  have hpre : ∀ c ∈ "\x7b\"sub\":\"user123\",\"email\":\"user@example.com\",\"iat\":".toList,
      c.toNat < 256 := by decide
  have hmid : ∀ c ∈ "\"exp\":".toList, c.toNat < 256 := by decide
  rcases List.mem_append.mp hc with hc | hc
  · rcases List.mem_append.mp hc with hc | hc
    · exact hpre c hc
    · exact intRepr_toNat_lt i c hc
  rcases List.mem_cons.mp hc with hc | hc
  · exact hc ▸ (by decide : (',').toNat < 256)
  rcases List.mem_append.mp hc with hc | hc
  · rcases List.mem_append.mp hc with hc | hc
    · exact hmid c hc
    · exact intRepr_toNat_lt e c hc
  · rw [List.mem_singleton.mp hc]
    exact (by decide : (Char.ofNat 125).toNat < 256)

theorem header_bytes_lt : ∀ x ∈ strToBytes (serializeObj headerFields), x < 256 := by
  decide

theorem sha256_lt (m : List Nat) : ∀ b ∈ sha256 m, b < 256 := by
  intro b hb
  unfold sha256 at hb
  rw [List.mem_flatten] at hb
  obtain ⟨l, hl, hbl⟩ := hb
  rw [List.mem_map] at hl
  obtain ⟨w, _, rfl⟩ := hl
  simp only [wordToBytes, List.mem_cons, List.not_mem_nil, or_false] at hbl
  rcases hbl with h | h | h | h <;> omega

theorem hmacSha256_lt (key m : List Nat) : ∀ b ∈ hmacSha256 key m, b < 256 := by
  intro b hb
  exact sha256_lt _ b hb

theorem hmacKeyBlock_append_zero {key : List Nat} (h : key.length ≤ 63) :
    hmacKeyBlock (key ++ [0]) = hmacKeyBlock key := by
  unfold hmacKeyBlock
  rw [if_neg (by simp; omega), if_neg (by omega)]
  simp only [List.length_append, List.length_singleton]
  rw [List.append_assoc]
  congr 1
  have h64 : 64 - key.length = (64 - (key.length + 1)) + 1 := by omega
  rw [h64, List.replicate_succ]
  rfl

/- ## Lemmas: the token splits into its three segments -/

theorem generateToken_decomp (i e : Int) :
    generateToken i e = headerSeg ++ '.' :: (payloadSeg i e ++ '.' :: sigSeg i e) := rfl

theorem splitOnDot_generateToken (i e : Int) :
    splitOnDot (generateToken i e) = [headerSeg, payloadSeg i e, sigSeg i e] := by
  have hhdr : ∀ c ∈ headerSeg, c ≠ '.' := fun c hc => mem_base64urlEncode_ne_dot _ c hc
  have hpl : ∀ c ∈ payloadSeg i e, c ≠ '.' := fun c hc => mem_base64urlEncode_ne_dot _ c hc
  have hsg : ∀ c ∈ sigSeg i e, c ≠ '.' := fun c hc => mem_base64urlEncode_ne_dot _ c hc
  rw [generateToken_decomp, splitOnDot_append headerSeg _ hhdr,
      splitOnDot_append (payloadSeg i e) _ hpl, splitOnDot_no_dot _ hsg]

theorem jwtVerify_generateToken (i e : Int) (secret : List Char) :
    jwtVerify (generateToken i e) secret =
      (sigSeg i e == base64urlEncode (hmacSha256 (strToBytes secret)
        (strToBytes (headerSeg ++ '.' :: payloadSeg i e)))) := by
  unfold jwtVerify
  rw [splitOnDot_generateToken]

theorem jwtVerify_generateToken_secret (i e : Int) :
    jwtVerify (generateToken i e) SECRET = true := by
  rw [jwtVerify_generateToken]
  exact beq_self_eq_true _

/- ## Lemmas: the clock model -/

theorem pyInt_of_nonneg {q : ℚ} (h : 0 ≤ q) : pyInt q = ⌊q⌋ := if_pos h

theorem payloadIat_eq {t1 : ℚ} (h : 0 ≤ t1) : payloadIat t1 = ⌊t1⌋ :=
  pyInt_of_nonneg h

theorem payloadExp_eq {t2 : ℚ} (h : 0 ≤ t2) : payloadExp t2 = ⌊t2⌋ + 31536000 := by
  unfold payloadExp
  rw [pyInt_of_nonneg (by positivity)]
  rw [show (31536000 : ℚ) = ((31536000 : ℤ) : ℚ) by norm_num, Int.floor_add_int]

/- ## The claims -/

/-- C1: for every run, the produced token is a string of exactly three
period-separated segments, each of which is valid base64url. -/
theorem claim1_token_three_base64url_segments (iat exp : Int) :
    (splitOnDot (generateToken iat exp)).length = 3 ∧
    ∀ s ∈ splitOnDot (generateToken iat exp), (base64urlDecode s).isSome := by
  rw [splitOnDot_generateToken]
  refine ⟨rfl, ?_⟩
  intro s hs
  simp only [List.mem_cons, List.not_mem_nil, or_false] at hs
  rcases hs with rfl | rfl | rfl
  · show (base64urlDecode (base64urlEncode (strToBytes (serializeObj headerFields)))).isSome
    rw [base64urlDecode_encode _ header_bytes_lt]
    rfl
  · show (base64urlDecode (base64urlEncode
      (strToBytes (serializeObj (payloadFields iat exp))))).isSome
    rw [base64urlDecode_encode _ (payload_bytes_lt iat exp)]
    rfl
  · show (base64urlDecode (base64urlEncode (hmacSha256 (strToBytes SECRET)
      (strToBytes (headerSeg ++ '.' :: payloadSeg iat exp))))).isSome
    rw [base64urlDecode_encode _ (hmacSha256_lt _ _)]
    rfl

/-- C2: base64url-decoding the payload segment yields the JSON serialization
of the payload mapping, which contains the keys `sub`, `email`, `iat`, `exp`,
with `sub = "user123"`, `email = "user@example.com"`, and `iat`, `exp` the two
integer timestamps. -/
theorem claim2_payload_segment_decodes (iat exp : Int) :
    base64urlDecode ((splitOnDot (generateToken iat exp)).getD 1 []) =
      some (strToBytes (serializeObj (payloadFields iat exp))) ∧
    (payloadFields iat exp).lookup "sub".toList = some (.jstr "user123".toList) ∧
    (payloadFields iat exp).lookup "email".toList = some (.jstr "user@example.com".toList) ∧
    (payloadFields iat exp).lookup "iat".toList = some (.jint iat) ∧
    (payloadFields iat exp).lookup "exp".toList = some (.jint exp) := by
  refine ⟨?_, rfl, rfl, rfl, rfl⟩
  rw [splitOnDot_generateToken]
  exact base64urlDecode_encode _ (payload_bytes_lt iat exp)

/-- C3: the payload's `exp` minus its `iat` is exactly 31536000 seconds, up
to the rounding of the two truncated timestamps (the two `datetime.now()`
readings lie within one second of each other). -/
theorem claim3_exp_minus_iat_one_year (t1 t2 : ℚ) (h0 : 0 ≤ t1) (h1 : t1 ≤ t2)
    (h2 : t2 < t1 + 1) :
    31536000 ≤ payloadExp t2 - payloadIat t1 ∧
    payloadExp t2 - payloadIat t1 ≤ 31536001 := by
  rw [payloadIat_eq h0, payloadExp_eq (le_trans h0 h1)]
  have hf1 : ⌊t1⌋ ≤ ⌊t2⌋ := Int.floor_le_floor h1
  have hf2 : ⌊t2⌋ ≤ ⌊t1⌋ + 1 := by
    have hle : ⌊t2⌋ ≤ ⌊t1 + 1⌋ := Int.floor_le_floor h2.le
    rwa [show (1:ℚ) = ((1:ℤ):ℚ) by norm_num, Int.floor_add_int] at hle
  omega

theorem claim3_witness :
    0 ≤ (0:ℚ) ∧ (0:ℚ) ≤ 0 ∧ (0:ℚ) < 0 + 1 ∧
    (31536000 ≤ payloadExp 0 - payloadIat 0 ∧
      payloadExp 0 - payloadIat 0 ≤ 31536001) :=
  ⟨le_refl 0, le_refl 0, lt_add_of_pos_right 0 one_pos,
    claim3_exp_minus_iat_one_year 0 0 (le_refl 0) (le_refl 0)
      (lt_add_of_pos_right 0 one_pos)⟩

/-- C4: for every pair of clock readings taken in order during payload
construction, the constructed payload satisfies `exp > iat`. -/
theorem claim4_exp_gt_iat (t1 t2 : ℚ) (h0 : 0 ≤ t1) (h1 : t1 ≤ t2) :
    payloadIat t1 < payloadExp t2 := by
  rw [payloadIat_eq h0, payloadExp_eq (le_trans h0 h1)]
  have := Int.floor_le_floor h1
  omega

theorem claim4_witness :
    0 ≤ (0:ℚ) ∧ (0:ℚ) ≤ 0 ∧ payloadIat 0 < payloadExp 0 :=
  ⟨le_refl 0, le_refl 0, claim4_exp_gt_iat 0 0 (le_refl 0) (le_refl 0)⟩

/-- C5: the token's third (signature) segment is the base64url encoding of
HMAC-SHA256, keyed with the shared secret, of the base64url header, a
period, and the base64url payload. -/
theorem claim5_signature_is_hmac (iat exp : Int) :
    (splitOnDot (generateToken iat exp)).getD 2 [] =
      base64urlEncode (hmacSha256 (strToBytes SECRET)
        (strToBytes (headerSeg ++ '.' :: payloadSeg iat exp))) := by
  rw [splitOnDot_generateToken]
  rfl

theorem hmacSha256_key_append_zero {key : List Nat} (h : key.length ≤ 63)
    (msg : List Nat) : hmacSha256 (key ++ [0]) msg = hmacSha256 key msg := by
  unfold hmacSha256
  rw [hmacKeyBlock_append_zero h]

/-- C6 (counterexample): the known secret with a NUL byte appended is a
different secret, yet the produced token verifies against it, because HMAC
zero-pads short keys to the 64-byte block. -/
theorem claim6_counterexample_nul_padded_secret :
    altSecret ≠ SECRET ∧ jwtVerify (generateToken 0 31536000) altSecret = true := by
  constructor
  · decide
  · rw [jwtVerify_generateToken]
    have hb : strToBytes altSecret = strToBytes SECRET ++ [0] := by
      simp [altSecret, strToBytes]
    rw [hb, hmacSha256_key_append_zero (by decide) _]
    exact beq_self_eq_true _

/-- C6 (amended): verification with the known secret succeeds, and
verification with an offered secret succeeds exactly when that secret's
HMAC-SHA256 over the signing input agrees with the known secret's (so
secrets with the same zero-padded key block, such as `altSecret`, also
pass, and any secret with a different MAC fails). -/
theorem claim6_amended_verification (iat exp : Int) (secret : List Char) :
    jwtVerify (generateToken iat exp) SECRET = true ∧
    (jwtVerify (generateToken iat exp) secret = true ↔
      hmacSha256 (strToBytes secret)
          (strToBytes (headerSeg ++ '.' :: payloadSeg iat exp)) =
        hmacSha256 (strToBytes SECRET)
          (strToBytes (headerSeg ++ '.' :: payloadSeg iat exp))) := by
  refine ⟨jwtVerify_generateToken_secret iat exp, ?_⟩
  rw [jwtVerify_generateToken]
  constructor
  · intro h
    have hsig : base64urlEncode (hmacSha256 (strToBytes SECRET)
          (strToBytes (headerSeg ++ '.' :: payloadSeg iat exp))) =
        base64urlEncode (hmacSha256 (strToBytes secret)
          (strToBytes (headerSeg ++ '.' :: payloadSeg iat exp))) := eq_of_beq h
    exact (base64urlEncode_inj (hmacSha256_lt _ _) (hmacSha256_lt _ _) hsig).symm
  · intro h
    rw [h]
    exact beq_self_eq_true _

/-- C7 (counterexample): two runs in immediate succession whose clock
readings truncate to the same whole second (here 0.5 seconds apart) produce
identical tokens, hence identical signature segments — not different ones. -/
theorem claim7_counterexample_same_second :
    (0:ℚ) ≠ 1/2 ∧
    runToken 0 0 = runToken (1/2) (1/2) ∧
    (splitOnDot (runToken 0 0)).getD 2 [] =
      (splitOnDot (runToken (1/2) (1/2))).getD 2 [] := by
  have hf : (⌊(1/2 : ℚ)⌋ : ℤ) = 0 := by
    rw [Int.floor_eq_zero_iff]
    constructor <;> norm_num
  have hiat0 : payloadIat 0 = 0 := by
    rw [payloadIat_eq le_rfl, Int.floor_zero]
  have hiat2 : payloadIat (1/2) = 0 := by
    rw [payloadIat_eq (by norm_num), hf]
  have hexp0 : payloadExp 0 = 31536000 := by
    rw [payloadExp_eq le_rfl, Int.floor_zero, zero_add]
  have hexp2 : payloadExp (1/2) = 31536000 := by
    rw [payloadExp_eq (by norm_num), hf, zero_add]
  have htok : runToken 0 0 = runToken (1/2) (1/2) := by
    unfold runToken
    rw [hiat0, hiat2, hexp0, hexp2]
  exact ⟨by norm_num, htok, by rw [htok]⟩

/-- C7 (amended): runs whose truncated `iat` timestamps differ produce
different payload segments and hence different tokens, and every produced
token verifies against the shared secret; runs in the same whole second
produce identical tokens (see the counterexample). -/
theorem claim7_amended_distinct_iat (i1 e1 i2 e2 : Int) (h1 : 0 ≤ i1)
    (h2 : 0 ≤ i2) (hne : i1 ≠ i2) :
    payloadSeg i1 e1 ≠ payloadSeg i2 e2 ∧
    generateToken i1 e1 ≠ generateToken i2 e2 ∧
    jwtVerify (generateToken i1 e1) SECRET = true ∧
    jwtVerify (generateToken i2 e2) SECRET = true := by
  have hc1 : ',' ∉ intRepr i1 := by
    rw [intRepr_nonneg h1]
    exact comma_not_mem_natRepr _
  have hc2 : ',' ∉ intRepr i2 := by
    rw [intRepr_nonneg h2]
    exact comma_not_mem_natRepr _
  have hps : payloadSeg i1 e1 ≠ payloadSeg i2 e2 := by
    intro h
    apply hne
    have hser := strToBytes_inj (base64urlEncode_inj (payload_bytes_lt i1 e1)
      (payload_bytes_lt i2 e2) h)
    rw [serialize_payload_decomp, serialize_payload_decomp] at hser
    rw [List.append_assoc, List.append_assoc] at hser
    have htail := List.append_cancel_left hser
    have hid := append_sep_cancel (intRepr i1) (intRepr i2) _ _ hc1 hc2 htail
    rw [intRepr_nonneg h1, intRepr_nonneg h2] at hid
    have := natRepr_inj hid
    omega
  refine ⟨hps, ?_, jwtVerify_generateToken_secret i1 e1,
    jwtVerify_generateToken_secret i2 e2⟩
  intro h
  apply hps
  have hsplit : [headerSeg, payloadSeg i1 e1, sigSeg i1 e1] =
      [headerSeg, payloadSeg i2 e2, sigSeg i2 e2] := by
    rw [← splitOnDot_generateToken, ← splitOnDot_generateToken, h]
  simp only [List.cons.injEq] at hsplit
  exact hsplit.2.1

theorem claim7_amended_witness :
    0 ≤ (0:Int) ∧ 0 ≤ (1:Int) ∧ (0:Int) ≠ 1 ∧
    (payloadSeg 0 5 ≠ payloadSeg 1 6 ∧
     generateToken 0 5 ≠ generateToken 1 6 ∧
     jwtVerify (generateToken 0 5) SECRET = true ∧
     jwtVerify (generateToken 1 6) SECRET = true) :=
  ⟨le_refl 0, by decide, by decide,
    claim7_amended_distinct_iat 0 5 1 6 (le_refl 0) (by decide) (by decide)⟩

/-- C8: the generator fails only when the signing step fails; a signing
failure aborts the run before any output is produced (empty stdout, exit
status 1), and a run with the actual total signing backend prints the full
output and exits 0. -/
theorem claim8_failure_is_fatal_and_silent
    (enc : List (List Char × JVal) → List Char → Except (List Char) (List Char))
    (iat exp : Int) (msg : List Char)
    (hfail : enc (payloadFields iat exp) SECRET = .error msg) :
    runScript enc iat exp = ([], 1) ∧
    runScript jwtEncodeExc iat exp = (scriptOutput iat exp, 0) := by
  constructor
  · unfold runScript
    rw [hfail]
  · rfl

theorem claim8_witness :
    failingEnc (payloadFields 0 0) SECRET = Except.error "signing failed".toList ∧
    (runScript failingEnc 0 0 = ([], 1) ∧
     runScript jwtEncodeExc 0 0 = (scriptOutput 0 0, 0)) :=
  ⟨rfl, claim8_failure_is_fatal_and_silent failingEnc 0 0 _ rfl⟩

/-- C9: every effect in the script's effect trace is a write to standard
output — there is no network call, file write, or environment mutation. -/
theorem claim9_only_stdout_effects (iat exp : Int) :
    (scriptTrace iat exp).all Effect.isStdout = true := by
  rw [List.all_eq_true]
  intro x hx
  rcases List.mem_map.mp hx with ⟨l, _, rfl⟩
  rfl

/-- C10: the token printed after the `Token:` heading is character-for-
character the token embedded in the PowerShell assignment, the curl
command, and the `simple-test.ps1` update line: one token per run, reused
in all four places. -/
theorem claim10_one_token_reused (iat exp : Int) :
    ∃ t : List Char, t = generateToken iat exp ∧
    (scriptOutput iat exp).getD 3 [] = "\nToken:\n".toList ++ t ++ "\n".toList ∧
    (scriptOutput iat exp).getD 9 [] = "   $token = \"".toList ++ t ++ "\"".toList ∧
    (scriptOutput iat exp).getD 13 [] =
      "   curl -H \"Authorization: Bearer ".toList ++ t ++
        "\" http://localhost:3000/notifications/health".toList ∧
    (scriptOutput iat exp).getD 15 [] =
      "   Change line: [string]$Token = \"".toList ++ t ++ "\"".toList :=
  ⟨generateToken iat exp, rfl, rfl, rfl, rfl, rfl⟩

end TokenGen
